import Mathlib

/-!
Verification development for the speedrun-api client library.

The definitions below are a shallow embedding of `src/client.ts` (the latest
revision of the client class).  Remote calls are modelled by a pure `World`
that maps each request to the response the remote service would give (with
`Option` absence standing for any non-200 outcome, exactly as the code folds
every failure into `null`).  Every client operation returns the list of
requests it issued together with its result, so that theorems can speak both
about results and about the calls that were made.
-/

namespace SpeedrunAPI

/-- Model of `{variableId, valueId}` pair, as in `category.ts` (`SubcategoryValue`)
and in `RunSettings.values` entries. -/
structure SubcatValue where
  variableId : String
  valueId : String
deriving DecidableEq, Repr

/-- Model of `SpeedrunCategoryId` from `category.ts`: an id-based category reference. -/
structure SpeedrunCategoryId where
  gameId : String
  categoryId : String
  subcategories : List SubcatValue
deriving DecidableEq, Repr

/-- Model of `SpeedrunCategory` from `category.ts`: a name-based category reference. -/
structure SpeedrunCategory where
  gameUrl : String
  categoryName : String
  subcategoryNames : List String
deriving DecidableEq, Repr

/-- The fields of `Category` (api-types.ts) the client reads. -/
structure Category where
  id : String
  name : String
deriving DecidableEq, Repr

/-- The fields of `Variable` (api-types.ts) the client reads. -/
structure GameVariable where
  id : String
  categoryId : String
  isSubcategory : Bool
deriving DecidableEq, Repr

/-- The fields of `Value` (api-types.ts) the client reads. -/
structure GameValue where
  id : String
  name : String
  variableId : String
deriving DecidableEq, Repr

/-- The fields of `GameData` (api-types.ts) the client reads:
`game.id`, `categories`, `variables`, `values`.  The source field name
`variables` is a reserved word in Lean, hence `variableList`. -/
structure GameData where
  gameId : String
  categories : List Category
  variableList : List GameVariable
  values : List GameValue
deriving DecidableEq, Repr

/-- Model of `Pagination` from api-types.ts. -/
structure Pagination where
  count : Nat
  page : Nat
  pages : Nat
  per : Nat
deriving DecidableEq, Repr

/-- The field of `Run` (api-types.ts) the enumeration reads (`run.id`). -/
structure GameRun where
  id : String
deriving DecidableEq, Repr

/-- Model of `GameLeaderboard` from api-types.ts (the fields the client reads). -/
structure GameLeaderboard where
  runList : List GameRun
  pagination : Pagination
deriving DecidableEq, Repr

/-- Model of `ObsoleteFilterStatus` enum from api-types.ts. -/
inductive ObsoleteFilterStatus
  | Hidden
  | Shown
  | Exclusive
deriving DecidableEq, Repr

/-- Model of `LeaderboardFilterParams` from client.ts: optional obsolete filter. -/
structure LeaderboardFilterParams where
  obsolete : Option ObsoleteFilterStatus
deriving DecidableEq, Repr

/-- Model of `Time` from api-types.ts. -/
structure Time where
  hour : Int
  minute : Int
  second : Int
  milisecond : Int
deriving DecidableEq, Repr

/-- Model of `RunSettings` from api-types.ts, as fetched by `GetRunSettings`.
`values` is `Array<{variableId, valueId}> | null`; `none` stands for the
JSON `null`. -/
structure RunSettings where
  runId : String
  gameId : String
  categoryId : String
  playerNames : List String
  time : Option Time
  timeWithLoads : Option Time
  igt : Option Time
  platformId : String
  emulator : Bool
  video : String
  comment : String
  date : Int
  values : Option (List SubcatValue)
deriving DecidableEq, Repr

/-- The possible JavaScript states of the `values` field of the settings
object sent to `PutRunSettings`: an array, `null`, or `undefined` (the last
arises when `moveRunToCategoryWithId` computes
`oldSettings.values?.filter(...)?.concat(...)` on a `null` field and the
resulting `undefined` overwrites the original via `Object.assign`). -/
inductive ValuesField
  | list (vs : List SubcatValue)
  | null
  | undef
deriving DecidableEq, Repr

/-- The settings object produced by `Object.assign(originalRun, params)` in
`editRun`.  Fields that `EditParams` may overwrite with a value of a
different JavaScript type than the fetched one are sums: the left summand is
the fetched (untouched) type, the right the `EditParams` type. -/
structure FinalSettings where
  runId : String
  gameId : String
  categoryId : String
  playerNames : List String
  time : Option Time
  timeWithLoads : Option Time
  igt : Option Time
  platformId : String
  emulator : Bool ⊕ String
  video : String
  comment : String
  date : Int ⊕ String
  values : ValuesField
deriving DecidableEq, Repr

/-- Model of `EditParams` from client.ts.  Every field is optional: `none` means the
property is absent from the object, so `Object.assign` leaves the fetched
field unchanged.  For `values`, `some none` models a property that is
present but holds `undefined` (as produced by `moveRunToCategoryWithId`),
which `Object.assign` copies, clobbering the fetched field. -/
structure EditParams where
  gameId : Option String
  categoryId : Option String
  playerNames : Option (List String)
  time : Option Time
  platformId : Option String
  emulator : Option String
  video : Option String
  comment : Option String
  date : Option String
  values : Option (Option (List SubcatValue))
deriving DecidableEq, Repr

/-- An `EditParams` with every property absent. -/
def EditParams.empty : EditParams :=
  { gameId := none, categoryId := none, playerNames := none, time := none
    platformId := none, emulator := none, video := none, comment := none
    date := none, values := none }

/-- Model of `values` entry of the `GetGameLeaderboard2` request body:
`{ variableId, valueIds }`. -/
structure LBValue where
  variableId : String
  valueIds : List String
deriving DecidableEq, Repr

/-- The remote requests a client operation can issue (the routes the core
uses, with the parameters the code actually sends). -/
inductive Request
  | getGameData (gameUrl : String)
  | getLeaderboard (gameId : String) (categoryId : String)
      (values : Option (List LBValue)) (obsolete : Option ObsoleteFilterStatus)
      (page : Option Nat)
  | getRunSettings (runId : String)
  | putRunSettings (settings : FinalSettings) (autoverify : Bool)
deriving DecidableEq, Repr

/-- A pure model of the remote service: what each request would return.
`none` models any non-success outcome (the code folds every failure into
`null`). -/
structure World where
  gameDataByUrl : String → Option GameData
  leaderboard : String → String → Option (List LBValue) →
      Option ObsoleteFilterStatus → Option Nat → Option GameLeaderboard
  runSettings : String → Option RunSettings
  putResult : FinalSettings → Bool → Bool

/-- Outcome of a JavaScript async function as seen by its caller: a resolved
value, a resolved `null`, a resolved `undefined` (a missing `return`), or a
rejected promise (a thrown error, e.g. a `TypeError` from reading a property
of `null`). -/
inductive JsResult (α : Type)
  | value (a : α)
  | null
  | undef
  | thrown
deriving DecidableEq, Repr

/-- Model of `getGameDataByUrl` (client.ts): one `GetGameData` request. -/
def getGameDataByUrl (w : World) (gameUrl : String) :
    List Request × Option GameData :=
  ([Request.getGameData gameUrl], w.gameDataByUrl gameUrl)

/-- Model of `getCategoryId` (client.ts): fetch the game data, then scan the
categories for the first exact name match and return its id. -/
def getCategoryId (w : World) (gameUrl : String) (categoryName : String) :
    List Request × Option String :=
  let r := getGameDataByUrl w gameUrl
  match r.2 with
  | none => (r.1, none)
  | some gameData =>
      (r.1, (gameData.categories.find? (fun c => c.name == categoryName)).map (·.id))

/-- Model of `getAllVariablesInCategory` (client.ts): fetch the game data, resolve the
category id, filter the variables scoped to that category. -/
def getAllVariablesInCategory (w : World) (gameUrl : String)
    (categoryName : String) : List Request × Option (List GameVariable) :=
  let r1 := getGameDataByUrl w gameUrl
  match r1.2 with
  | none => (r1.1, none)
  | some gameData =>
      let r2 := getCategoryId w gameUrl categoryName
      match r2.2 with
      | none => (r1.1 ++ r2.1, none)
      | some categoryId =>
          (r1.1 ++ r2.1,
            some (gameData.variableList.filter (fun v => v.categoryId == categoryId)))

/-- Model of `getAllSubcategoriesInCategory` (client.ts): keep the variables flagged
`isSubcategory`, refetch the game data, and keep the values whose
`variableId` is one of those variables.  The source casts the refetched game
data as non-null ("can't be null at this point since the check above
worked"); with a deterministic world that branch is indeed unreachable, and
the model returns `none` there. -/
def getAllSubcategoriesInCategory (w : World) (gameUrl : String)
    (categoryName : String) : List Request × Option (List GameValue) :=
  let r1 := getAllVariablesInCategory w gameUrl categoryName
  match r1.2 with
  | none => (r1.1, none)
  | some vars =>
      let subcategoryVariables := vars.filter (·.isSubcategory)
      let r2 := getGameDataByUrl w gameUrl
      match r2.2 with
      | none => (r1.1 ++ r2.1, none)
      | some gameData =>
          (r1.1 ++ r2.1,
            some (gameData.values.filter
              (fun value => subcategoryVariables.any (fun v => v.id == value.variableId))))

/-- Model of `getSubcategoryVariableAndValue` (client.ts): find the named value among
the category's subcategory values and return its
`{variableId, valueId}` pair. -/
def getSubcategoryVariableAndValue (w : World) (gameUrl : String)
    (categoryName : String) (subcategoryName : String) :
    List Request × Option SubcatValue :=
  let r := getAllSubcategoriesInCategory w gameUrl categoryName
  match r.2 with
  | none => (r.1, none)
  | some subcategories =>
      match subcategories.find? (fun s => s.name == subcategoryName) with
      | none => (r.1, none)
      | some subcategory =>
          (r.1, some { variableId := subcategory.variableId, valueId := subcategory.id })

/-- The `for (const subcategoryName of category.subcategoryNames)` loop of
`getSubcategoryIdFromNames`: resolve each name in order, returning `null`
(and issuing no further fetches) as soon as one fails. -/
def resolveSubcategoryNames (w : World) (gameUrl : String)
    (categoryName : String) : List String → List Request × Option (List SubcatValue)
  | [] => ([], some [])
  | n :: ns =>
      let r := getSubcategoryVariableAndValue w gameUrl categoryName n
      match r.2 with
      | none => (r.1, none)
      | some subcategoryInfo =>
          let rest := resolveSubcategoryNames w gameUrl categoryName ns
          match rest.2 with
          | none => (r.1 ++ rest.1, none)
          | some vs => (r.1 ++ rest.1, some (subcategoryInfo :: vs))

/-- Model of `getSubcategoryIdFromNames` (client.ts): resolve the game id, the
category id and, in input order, every named subcategory. -/
def getSubcategoryIdFromNames (w : World) (category : SpeedrunCategory) :
    List Request × Option SpeedrunCategoryId :=
  let r1 := getGameDataByUrl w category.gameUrl
  match r1.2 with
  | none => (r1.1, none)
  | some gameData =>
      let gameId := gameData.gameId
      let r2 := getCategoryId w category.gameUrl category.categoryName
      match r2.2 with
      | none => (r1.1 ++ r2.1, none)
      | some categoryId =>
          let r3 := resolveSubcategoryNames w category.gameUrl
            category.categoryName category.subcategoryNames
          match r3.2 with
          | none => (r1.1 ++ r2.1 ++ r3.1, none)
          | some subcategoryValues =>
              (r1.1 ++ r2.1 ++ r3.1,
                some { gameId := gameId, categoryId := categoryId,
                       subcategories := subcategoryValues })

/-- Model of `getGameLeaderboard` (client.ts): one `GetGameLeaderboard2` request with
the filter parameters the core paths use. -/
def getGameLeaderboard (w : World) (gameId : String) (categoryId : String)
    (values : Option (List LBValue)) (obsolete : Option ObsoleteFilterStatus)
    (page : Option Nat) : List Request × Option GameLeaderboard :=
  ([Request.getLeaderboard gameId categoryId values obsolete page],
    w.leaderboard gameId categoryId values obsolete page)

/-- Model of `getLeaderboardForSubcategory` (client.ts): resolve the category, then
fetch one leaderboard page with one `{variableId, valueIds: [valueId]}`
entry per resolved subcategory.  The source defaults `page` to 1; callers
here always pass it explicitly. -/
def getLeaderboardForSubcategory (w : World) (category : SpeedrunCategory)
    (leaderboardParams : LeaderboardFilterParams) (page : Nat) :
    List Request × Option GameLeaderboard :=
  let r1 := getSubcategoryIdFromNames w category
  match r1.2 with
  | none => (r1.1, none)
  | some subcategory =>
      let r2 := getGameLeaderboard w subcategory.gameId subcategory.categoryId
        (some (subcategory.subcategories.map
          (fun s => { variableId := s.variableId, valueIds := [s.valueId] })))
        leaderboardParams.obsolete (some page)
      match r2.2 with
      | none => (r1.1 ++ r2.1, none)
      | some leaderboard => (r1.1 ++ r2.1, some leaderboard)

/-- The pages visited by the loop `for (let i = 2; i < totalPages; i++)` of
`getAllRunsInCategory`: `[2, ..., totalPages - 1]`. -/
def laterPages (totalPages : Nat) : List Nat :=
  List.range' 2 (totalPages - 2)

/-- The body of that loop.  The source reads `leaderboard.runList` without a
null check, so a failed page fetch is a `TypeError`: the promise rejects,
modelled by `JsResult.thrown`. -/
def getAllRunsPageLoop (w : World) (category : SpeedrunCategory)
    (filterParams : LeaderboardFilterParams) :
    List Nat → List GameRun → List Request × JsResult (List GameRun)
  | [], runs => ([], JsResult.value runs)
  | i :: rest, runs =>
      let r := getLeaderboardForSubcategory w category filterParams i
      match r.2 with
      | none => (r.1, JsResult.thrown)
      | some leaderboard =>
          let r2 := getAllRunsPageLoop w category filterParams rest
            (runs ++ leaderboard.runList)
          (r.1 ++ r2.1, r2.2)

/-- The `filterParams` object of `getAllRunsInCategory`:
`{ obsolete: ObsoleteFilterStatus.Shown }`. -/
def shownFilter : LeaderboardFilterParams :=
  { obsolete := some ObsoleteFilterStatus.Shown }

/-- Model of `getAllRunsInCategory` (client.ts): fetch the first leaderboard page
(with the obsolete filter set to `Shown`), then the loop pages, and map the
accumulated runs to their ids. -/
def getAllRunsInCategory (w : World) (category : SpeedrunCategory) :
    List Request × JsResult (List String) :=
  let filterParams := shownFilter
  let r1 := getLeaderboardForSubcategory w category filterParams 1
  match r1.2 with
  | none => (r1.1, JsResult.null)
  | some leaderboard =>
      let runs : List GameRun := [] ++ leaderboard.runList
      let totalPages := leaderboard.pagination.pages
      let r2 := getAllRunsPageLoop w category filterParams (laterPages totalPages) runs
      (r1.1 ++ r2.1,
        match r2.2 with
        | JsResult.value rs => JsResult.value (rs.map (·.id))
        | JsResult.null => JsResult.null
        | JsResult.undef => JsResult.undef
        | JsResult.thrown => JsResult.thrown)

/-- Model of `getRunSettings` (client.ts): one `GetRunSettings` request. -/
def getRunSettings (w : World) (runId : String) :
    List Request × Option RunSettings :=
  ([Request.getRunSettings runId], w.runSettings runId)

/-- Model of `putRunSettings` (client.ts): one `PutRunSettings` request carrying the
settings and the autoverify flag. -/
def putRunSettings (w : World) (settings : FinalSettings) (autoverify : Bool) :
    List Request × Bool :=
  ([Request.putRunSettings settings autoverify], w.putResult settings autoverify)

/-- Model of `Object.assign(originalRun, params)` in `editRun`: every property
present on `params` overwrites the fetched field (a property that is present
but `undefined` still overwrites); absent properties leave the fetched field
unchanged.  `runId`, `timeWithLoads` and `igt` are not `EditParams` fields,
so they always survive. -/
def objectAssign (originalRun : RunSettings) (params : EditParams) :
    FinalSettings :=
  { runId := originalRun.runId
    gameId := params.gameId.getD originalRun.gameId
    categoryId := params.categoryId.getD originalRun.categoryId
    playerNames := params.playerNames.getD originalRun.playerNames
    time := match params.time with
      | some t => some t
      | none => originalRun.time
    timeWithLoads := originalRun.timeWithLoads
    igt := originalRun.igt
    platformId := params.platformId.getD originalRun.platformId
    emulator := match params.emulator with
      | some s => Sum.inr s
      | none => Sum.inl originalRun.emulator
    video := params.video.getD originalRun.video
    comment := params.comment.getD originalRun.comment
    date := match params.date with
      | some s => Sum.inr s
      | none => Sum.inl originalRun.date
    values := match params.values with
      | none =>
          match originalRun.values with
          | some vs => ValuesField.list vs
          | none => ValuesField.null
      | some (some vs) => ValuesField.list vs
      | some none => ValuesField.undef }

/-- Model of `editRun` (client.ts): fetch the current settings, merge the params over
them, and push the result back with `autoverify = true`. -/
def editRun (w : World) (runId : String) (params : EditParams) :
    List Request × Bool :=
  let r1 := getRunSettings w runId
  match r1.2 with
  | none => (r1.1, false)
  | some originalRun =>
      let finalSettings := objectAssign originalRun params
      let r2 := putRunSettings w finalSettings true
      (r1.1 ++ r2.1, r2.2)

/-- The `for (const runId of runs)` loop of `editAllRunsInCategory`: every
run is edited in sequence and each result is discarded. -/
def editAllRunsLoop (w : World) (editParams : EditParams) :
    List String → List Request
  | [] => []
  | runId :: rest =>
      (editRun w runId editParams).1 ++ editAllRunsLoop w editParams rest

/-- Model of `editAllRunsInCategory` (client.ts): enumerate the runs (returning
`false` when that yields `null`), then edit each one.  The source has no
`return` statement after the loop, so on that path the promise resolves to
`undefined`. -/
def editAllRunsInCategory (w : World) (category : SpeedrunCategory)
    (editParams : EditParams) : List Request × JsResult Bool :=
  let r1 := getAllRunsInCategory w category
  match r1.2 with
  | JsResult.null => (r1.1, JsResult.value false)
  | JsResult.undef => (r1.1, JsResult.value false)
  | JsResult.thrown => (r1.1, JsResult.thrown)
  | JsResult.value runs =>
      (r1.1 ++ editAllRunsLoop w editParams runs, JsResult.undef)

/-- The `subcategoryIds` table of `moveRunToCategoryWithId`: starting from
`{}`, each `subcategoryIds[subcategory.variableId] = subcategory.valueId`
assignment overwrites in iteration order. -/
def assignSubcategoryIds : List SubcatValue → (String → Option String) →
    String → Option String
  | [], m => m
  | s :: rest, m =>
      assignSubcategoryIds rest
        (fun v => if v == s.variableId then some s.valueId else m v)

/-- Lookup in the finished `subcategoryIds` table (missing keys read as
`undefined`, which no string is ever strictly equal to). -/
def subcategoryIdsMap (subcategories : List SubcatValue) :
    String → Option String :=
  assignSubcategoryIds subcategories (fun _ => none)

/-- The `newValues` expression of `moveRunToCategoryWithId`:
`oldSettings.values?.filter(v => v.valueId !== subcategoryIds[v.variableId])
 ?.concat(newCategory.subcategories.map(...))`.
A `null` fetched field short-circuits through `?.` to `undefined`. -/
def moveNewValues (oldValues : Option (List SubcatValue))
    (oldCategory newCategory : SpeedrunCategoryId) :
    Option (List SubcatValue) :=
  match oldValues with
  | none => none
  | some vs =>
      some ((vs.filter (fun value =>
          !(some value.valueId == subcategoryIdsMap oldCategory.subcategories value.variableId)))
        ++ newCategory.subcategories.map
          (fun s => { variableId := s.variableId, valueId := s.valueId }))

/-- Model of `moveRunToCategoryWithId` (client.ts): fetch the run's settings, strip
the old category's subcategory selections, append the new category's, and
edit the run with the new category id and the new values (the `values`
property is present on the params object even when its value is
`undefined`). -/
def moveRunToCategoryWithId (w : World) (runId : String)
    (oldCategory newCategory : SpeedrunCategoryId) : List Request × Bool :=
  let r1 := getRunSettings w runId
  match r1.2 with
  | none => (r1.1, false)
  | some oldSettings =>
      let newValues := moveNewValues oldSettings.values oldCategory newCategory
      let r2 := editRun w runId
        { EditParams.empty with
            categoryId := some newCategory.categoryId
            values := some newValues }
      (r1.1 ++ r2.1, if !r2.2 then false else true)

/-- Model of `moveRunToCategory` (client.ts): resolve both name-based references and
delegate to `moveRunToCategoryWithId`. -/
def moveRunToCategory (w : World) (runId : String)
    (oldCategory newCategory : SpeedrunCategory) : List Request × Bool :=
  let r1 := getSubcategoryIdFromNames w oldCategory
  match r1.2 with
  | none => (r1.1, false)
  | some oldCategoryId =>
      let r2 := getSubcategoryIdFromNames w newCategory
      match r2.2 with
      | none => (r1.1 ++ r2.1, false)
      | some newCategoryId =>
          let r3 := moveRunToCategoryWithId w runId oldCategoryId newCategoryId
          (r1.1 ++ r2.1 ++ r3.1, r3.2)

/-- The `for (const runId of runs)` loop of `moveAllRunsInCategory`. -/
def moveAllRunsLoop (w : World) (oldCategoryId newCategoryId : SpeedrunCategoryId) :
    List String → List Request
  | [] => []
  | runId :: rest =>
      (moveRunToCategoryWithId w runId oldCategoryId newCategoryId).1
        ++ moveAllRunsLoop w oldCategoryId newCategoryId rest

/-- Model of `moveAllRunsInCategory` (client.ts): enumerate the runs, resolve both
references once, move each run, and return `true`. -/
def moveAllRunsInCategory (w : World) (category newCategory : SpeedrunCategory) :
    List Request × JsResult Bool :=
  let r1 := getAllRunsInCategory w category
  match r1.2 with
  | JsResult.null => (r1.1, JsResult.value false)
  | JsResult.undef => (r1.1, JsResult.value false)
  | JsResult.thrown => (r1.1, JsResult.thrown)
  | JsResult.value runs =>
      let r2 := getSubcategoryIdFromNames w category
      match r2.2 with
      | none => (r1.1 ++ r2.1, JsResult.value false)
      | some oldCategoryId =>
          let r3 := getSubcategoryIdFromNames w newCategory
          match r3.2 with
          | none => (r1.1 ++ r2.1 ++ r3.1, JsResult.value false)
          | some newCategoryId =>
              (r1.1 ++ r2.1 ++ r3.1 ++ moveAllRunsLoop w oldCategoryId newCategoryId runs,
                JsResult.value true)

/-! ### Properties and trace observations -/

/-- The data-model invariant on a selection set: at most one `valueId` per
distinct `variableId`. -/
def atMostOneValuePerVariable (vs : List SubcatValue) : Prop :=
  ∀ x ∈ vs, ∀ y ∈ vs, x.variableId = y.variableId → x.valueId = y.valueId

instance (vs : List SubcatValue) : Decidable (atMostOneValuePerVariable vs) :=
  inferInstanceAs (Decidable
    (∀ x ∈ vs, ∀ y ∈ vs, x.variableId = y.variableId → x.valueId = y.valueId))

/-- The selection-set invariant lifted to a written `values` field: a `null`
or `undefined` field carries no selection set. -/
def valuesFieldOk : ValuesField → Prop
  | ValuesField.list vs => atMostOneValuePerVariable vs
  | ValuesField.null => True
  | ValuesField.undef => True

/-- A `{variableId, valueId}` pair is properly scoped to `categoryId` inside
a game snapshot: its variable exists, is scoped to that category, is flagged
`isSubcategory`, and the value names one of that variable's values. -/
def pairScopedToCategory (gd : GameData) (categoryId : String)
    (p : SubcatValue) : Bool :=
  gd.variableList.any
      (fun vr => vr.id == p.variableId && vr.categoryId == categoryId && vr.isSubcategory)
    && gd.values.any (fun val => val.id == p.valueId && val.variableId == p.variableId)

/-- The `page` body parameters of the `GetGameLeaderboard2` requests of a
trace, in order. -/
def lbPagesOf (t : List Request) : List (Option Nat) :=
  t.filterMap fun r =>
    match r with
    | Request.getLeaderboard _ _ _ _ page => some page
    | _ => none

/-- The run ids of the `GetRunSettings` requests of a trace, in order. -/
def settingsFetchesOf (t : List Request) : List String :=
  t.filterMap fun r =>
    match r with
    | Request.getRunSettings runId => some runId
    | _ => none

/-- The `values` fields of the settings written by the `PutRunSettings`
requests of a trace, in order. -/
def putValuesOf (t : List Request) : List ValuesField :=
  t.filterMap fun r =>
    match r with
    | Request.putRunSettings s _ => some s.values
    | _ => none

/-- The `categoryId` fields of the settings written by the `PutRunSettings`
requests of a trace, in order. -/
def putCategoryIdsOf (t : List Request) : List String :=
  t.filterMap fun r =>
    match r with
    | Request.putRunSettings s _ => some s.categoryId
    | _ => none

/-! ### Fixture worlds for concrete evaluations -/

/-- A minimal game snapshot: game `G`, one category `Cat` with id `C`, no
variables. -/
def fixtureGameData : GameData :=
  { gameId := "G"
    categories := [{ id := "C", name := "Cat" }]
    variableList := []
    values := [] }

/-- The name-based reference `⟨g, Cat, []⟩` used with the fixture worlds. -/
def fixtureCategory : SpeedrunCategory :=
  { gameUrl := "g", categoryName := "Cat", subcategoryNames := [] }

/-- A leaderboard page of a three-page leaderboard: one run per page. -/
def threePage (p : Nat) (runId : String) : GameLeaderboard :=
  { runList := [{ id := runId }]
    pagination := { count := 3, page := p, pages := 3, per := 1 } }

/-- A world whose leaderboard for game `G`, category `C` has
`pagination.pages = 3`: pages 1, 2 and 3 hold runs `p1a`, `p2a`, `p3a`. -/
def threePageWorld : World :=
  { gameDataByUrl := fun u => if u == "g" then some fixtureGameData else none
    leaderboard := fun gid cid _ _ page =>
      if gid == "G" && cid == "C" then
        match page with
        | some 1 => some (threePage 1 "p1a")
        | some 2 => some (threePage 2 "p2a")
        | some 3 => some (threePage 3 "p3a")
        | _ => none
      else none
    runSettings := fun _ => none
    putResult := fun _ _ => true }

/-- Like `threePageWorld`, but the fetch of page 2 fails (returns absent). -/
def laterFailWorld : World :=
  { gameDataByUrl := fun u => if u == "g" then some fixtureGameData else none
    leaderboard := fun gid cid _ _ page =>
      if gid == "G" && cid == "C" then
        match page with
        | some 1 => some (threePage 1 "p1a")
        | some 3 => some (threePage 3 "p3a")
        | _ => none
      else none
    runSettings := fun _ => none
    putResult := fun _ _ => true }

/-- The first page served by `laterFailWorld`. -/
def laterFailPage1 : GameLeaderboard := threePage 1 "p1a"

/-- Settings of run `e2` in `editWorld`. -/
def editFixtureSettings : RunSettings :=
  { runId := "e2", gameId := "G", categoryId := "C", playerNames := ["player"]
    time := none, timeWithLoads := none, igt := none, platformId := "pf"
    emulator := false, video := "vid", comment := "old", date := 0
    values := some [] }

/-- A world with a one-page leaderboard holding runs `e1` and `e2`, where
the settings fetch succeeds only for `e2` (so editing `e1` fails). -/
def editWorld : World :=
  { gameDataByUrl := fun u => if u == "g" then some fixtureGameData else none
    leaderboard := fun gid cid _ _ page =>
      if gid == "G" && cid == "C" then
        match page with
        | some 1 => some { runList := [{ id := "e1" }, { id := "e2" }]
                           pagination := { count := 2, page := 1, pages := 1, per := 20 } }
        | _ => none
      else none
    runSettings := fun rid => if rid == "e2" then some editFixtureSettings else none
    putResult := fun _ _ => true }

/-- A sample edit request: change the comment only. -/
def editFixtureParams : EditParams :=
  { EditParams.empty with comment := some "new" }

/-- Fetched settings of run `rA`: selection set `{v1: a, v2: b}`. -/
def settingsTwo : RunSettings :=
  { runId := "rA", gameId := "G", categoryId := "C", playerNames := ["player"]
    time := none, timeWithLoads := none, igt := none, platformId := "pf"
    emulator := false, video := "vid", comment := "cm", date := 0
    values := some [{ variableId := "v1", valueId := "a" },
                    { variableId := "v2", valueId := "b" }] }

/-- Fetched settings of run `rB`: selection set `{v1: a}`. -/
def settingsOne : RunSettings :=
  { runId := "rB", gameId := "G", categoryId := "C", playerNames := ["player"]
    time := none, timeWithLoads := none, igt := none, platformId := "pf"
    emulator := false, video := "vid", comment := "cm", date := 0
    values := some [{ variableId := "v1", valueId := "a" }] }

/-- Fetched settings of run `rC`: `values` is `null`. -/
def settingsNull : RunSettings :=
  { runId := "rC", gameId := "G", categoryId := "C", playerNames := ["player"]
    time := none, timeWithLoads := none, igt := none, platformId := "pf"
    emulator := false, video := "vid", comment := "cm", date := 0
    values := none }

/-- A world serving only run settings: `rA` with `{v1: a, v2: b}`, `rB` with
`{v1: a}`, `rC` with a `null` values field. -/
def settingsWorld : World :=
  { gameDataByUrl := fun _ => none
    leaderboard := fun _ _ _ _ _ => none
    runSettings := fun rid =>
      if rid == "rA" then some settingsTwo
      else if rid == "rB" then some settingsOne
      else if rid == "rC" then some settingsNull
      else none
    putResult := fun _ _ => true }

/-- Id-based reference mapping `v1 -> a` (old category of the move tests). -/
def oldCatA : SpeedrunCategoryId :=
  { gameId := "G", categoryId := "C",
    subcategories := [{ variableId := "v1", valueId := "a" }] }

/-- Id-based reference mapping `v1 -> c` (new category of the move tests). -/
def newCatC : SpeedrunCategoryId :=
  { gameId := "G", categoryId := "C2",
    subcategories := [{ variableId := "v1", valueId := "c" }] }

/-- Id-based reference with no subcategory selections. -/
def emptyOldCat : SpeedrunCategoryId :=
  { gameId := "G", categoryId := "C", subcategories := [] }

/-- A game snapshot with two categories, where variable `v1` (value `c`,
named `CName`) is scoped to the second category `C2`. -/
def dupGameData : GameData :=
  { gameId := "G"
    categories := [{ id := "C", name := "Cat" }, { id := "C2", name := "Cat2" }]
    variableList := [{ id := "v1", categoryId := "C2", isSubcategory := true }]
    values := [{ id := "c", name := "CName", variableId := "v1" }] }

/-- A world in which `⟨g, Cat, []⟩` resolves to `emptyOldCat`,
`⟨g, Cat2, [CName]⟩` resolves to `newCatC`, and run `rB` carries the stray
selection `{v1: a}`. -/
def dupWorld : World :=
  { gameDataByUrl := fun u => if u == "g" then some dupGameData else none
    leaderboard := fun _ _ _ _ _ => none
    runSettings := fun rid => if rid == "rB" then some settingsOne else none
    putResult := fun _ _ => true }

/-- A game snapshot with one category `Cat` (id `C`), one subcategory
variable `var1` scoped to it, and one value `NTSC` (id `val1`). -/
def richGameData : GameData :=
  { gameId := "G"
    categories := [{ id := "C", name := "Cat" }]
    variableList := [{ id := "var1", categoryId := "C", isSubcategory := true }]
    values := [{ id := "val1", name := "NTSC", variableId := "var1" }] }

/-- A world serving `richGameData` at game url `g`. -/
def gameWorld : World :=
  { gameDataByUrl := fun u => if u == "g" then some richGameData else none
    leaderboard := fun _ _ _ _ _ => none
    runSettings := fun _ => none
    putResult := fun _ _ => true }

/-- The name-based reference `⟨g, Cat, [NTSC]⟩`. -/
def ntscCategory : SpeedrunCategory :=
  { gameUrl := "g", categoryName := "Cat", subcategoryNames := ["NTSC"] }

/-- What `ntscCategory` resolves to in `gameWorld`. -/
def resolvedNTSC : SpeedrunCategoryId :=
  { gameId := "G", categoryId := "C",
    subcategories := [{ variableId := "var1", valueId := "val1" }] }

/-! ### Helper lemmas about the resolution chain -/

theorem resolveSubcategoryNames_none_of_mem (w : World) (g c : String)
    {ns : List String} {n : String} (hn : n ∈ ns)
    (hfail : (getSubcategoryVariableAndValue w g c n).2 = none) :
    (resolveSubcategoryNames w g c ns).2 = none := by
  induction ns with
  | nil => cases hn
  | cons m ms ih =>
      rcases List.mem_cons.mp hn with rfl | hn'
      · simp only [resolveSubcategoryNames, hfail]
      · cases hm : (getSubcategoryVariableAndValue w g c m).2 with
        | none => simp only [resolveSubcategoryNames, hm]
        | some v =>
            simp only [resolveSubcategoryNames, hm, ih hn']

theorem resolveSubcategoryNames_forall2 (w : World) (g c : String) :
    ∀ (ns : List String) (l : List SubcatValue),
      (resolveSubcategoryNames w g c ns).2 = some l →
      List.Forall₂ (fun n v => (getSubcategoryVariableAndValue w g c n).2 = some v) ns l
  | [], l, h => by
      simp only [resolveSubcategoryNames] at h
      cases h
      exact List.Forall₂.nil
  | m :: ms, l, h => by
      cases hm : (getSubcategoryVariableAndValue w g c m).2 with
      | none =>
          simp only [resolveSubcategoryNames, hm] at h
          cases h
      | some v =>
          cases hrest : (resolveSubcategoryNames w g c ms).2 with
          | none =>
              simp only [resolveSubcategoryNames, hm, hrest] at h
              cases h
          | some vs =>
              simp only [resolveSubcategoryNames, hm, hrest] at h
              cases h
              exact List.Forall₂.cons hm (resolveSubcategoryNames_forall2 w g c ms vs hrest)

theorem forall2_mem_right {α β : Type} {R : α → β → Prop} :
    ∀ {ns : List α} {l : List β}, List.Forall₂ R ns l → ∀ p ∈ l, ∃ n ∈ ns, R n p
  | _, _, List.Forall₂.nil, p, hp => by cases hp
  | _, _, List.Forall₂.cons hr hrest, p, hp => by
      rcases List.mem_cons.mp hp with rfl | hp'
      · exact ⟨_, List.mem_cons_self _ _, hr⟩
      · obtain ⟨n, hn, hR⟩ := forall2_mem_right hrest p hp'
        exact ⟨n, List.mem_cons_of_mem _ hn, hR⟩

theorem getAllVariablesInCategory_some (w : World) (g c : String)
    (vars : List GameVariable)
    (h : (getAllVariablesInCategory w g c).2 = some vars) :
    ∃ gd cid, w.gameDataByUrl g = some gd
      ∧ (getCategoryId w g c).2 = some cid
      ∧ vars = gd.variableList.filter (fun v => v.categoryId == cid) := by
  cases hgd : w.gameDataByUrl g with
  | none => simp [getAllVariablesInCategory, getGameDataByUrl, hgd] at h
  | some gd =>
      cases hcid : (getCategoryId w g c).2 with
      | none => simp [getAllVariablesInCategory, getGameDataByUrl, hgd, hcid] at h
      | some cid =>
          simp only [getAllVariablesInCategory, getGameDataByUrl, hgd, hcid] at h
          injection h with h
          exact ⟨gd, cid, rfl, rfl, h.symm⟩

theorem getAllSubcategoriesInCategory_some (w : World) (g c : String)
    (subs : List GameValue)
    (h : (getAllSubcategoriesInCategory w g c).2 = some subs) :
    ∃ gd cid, w.gameDataByUrl g = some gd
      ∧ (getCategoryId w g c).2 = some cid
      ∧ subs = gd.values.filter (fun value =>
          (((gd.variableList.filter (fun v => v.categoryId == cid)).filter
            (·.isSubcategory)).any (fun v => v.id == value.variableId))) := by
  cases hvars : (getAllVariablesInCategory w g c).2 with
  | none => simp [getAllSubcategoriesInCategory, hvars] at h
  | some vars =>
      obtain ⟨gd, cid, hgd, hcid, hveq⟩ :=
        getAllVariablesInCategory_some w g c vars hvars
      simp only [getAllSubcategoriesInCategory, hvars, getGameDataByUrl, hgd] at h
      injection h with h
      exact ⟨gd, cid, hgd, hcid, by rw [← h, hveq]⟩

theorem getSubcategoryVariableAndValue_scoped (w : World) (g c n : String)
    (p : SubcatValue)
    (h : (getSubcategoryVariableAndValue w g c n).2 = some p) :
    ∃ gd cid, w.gameDataByUrl g = some gd
      ∧ (getCategoryId w g c).2 = some cid
      ∧ pairScopedToCategory gd cid p = true := by
  cases hsubs : (getAllSubcategoriesInCategory w g c).2 with
  | none => simp [getSubcategoryVariableAndValue, hsubs] at h
  | some subs =>
      obtain ⟨gd, cid, hgd, hcid, hsubs_eq⟩ :=
        getAllSubcategoriesInCategory_some w g c subs hsubs
      cases hfind : subs.find? (fun s => s.name == n) with
      | none => simp [getSubcategoryVariableAndValue, hsubs, hfind] at h
      | some subcat =>
          simp only [getSubcategoryVariableAndValue, hsubs, hfind] at h
          injection h with h
          subst h
          refine ⟨gd, cid, hgd, hcid, ?_⟩
          have hmem : subcat ∈ subs := List.mem_of_find?_eq_some hfind
          rw [hsubs_eq, List.mem_filter] at hmem
          obtain ⟨hval_mem, hany⟩ := hmem
          rw [List.any_eq_true] at hany
          obtain ⟨vr, hvr_mem, hvr_id⟩ := hany
          rw [List.mem_filter] at hvr_mem
          obtain ⟨hvr_mem2, hvr_sub⟩ := hvr_mem
          rw [List.mem_filter] at hvr_mem2
          obtain ⟨hvr_mem3, hvr_cat⟩ := hvr_mem2
          simp only [pairScopedToCategory, Bool.and_eq_true, List.any_eq_true]
          refine ⟨⟨vr, hvr_mem3, ?_⟩, ⟨subcat, hval_mem, ?_⟩⟩
          · exact ⟨⟨hvr_id, hvr_cat⟩, hvr_sub⟩
          · simp

/-! ### Claim theorems -/

/-- C1: against `threePageWorld`, whose first leaderboard page reports
`pagination.pages = 3`, `getAllRunsInCategory` issues only TWO leaderboard
page fetches (pages 1 and 2) and returns only those two pages' run ids: the
loop `for (let i = 2; i < totalPages; i++)` never requests the last page.
This contradicts the claim (and the function's own "Gets a list of all the
run IDs" contract), exhibiting the off-by-one: the claimed behavior would be
pages `[some 1, some 2, some 3]` and ids `["p1a", "p2a", "p3a"]`. -/
theorem getAllRunsInCategory_pages3_fetches_only_two :
    lbPagesOf (getAllRunsInCategory threePageWorld fixtureCategory).1
        = [some 1, some 2]
      ∧ (getAllRunsInCategory threePageWorld fixtureCategory).2
        = JsResult.value ["p1a", "p2a"] := by
  constructor
  · rfl
  · rfl

/-- C6: against `editWorld` (enumeration succeeds with runs `e1`, `e2`, and
the settings fetch for `e1` fails), `editAllRunsInCategory` processes both
runs (it fetches settings for `e1` and `e2`, and the failure on `e1` does
not stop it from writing `e2`), but resolves to `undefined` — not `true` —
because the source has no `return` statement after the loop.  This
contradicts the claim and the function's own "True if all runs were edited
successfully" contract. -/
theorem editAllRunsInCategory_returns_undefined :
    (editAllRunsInCategory editWorld fixtureCategory editFixtureParams).2
        = JsResult.undef
      ∧ settingsFetchesOf
          (editAllRunsInCategory editWorld fixtureCategory editFixtureParams).1
        = ["e1", "e2"]
      ∧ (putValuesOf
          (editAllRunsInCategory editWorld fixtureCategory editFixtureParams).1).length
        = 1
      ∧ JsResult.undef ≠ JsResult.value true := by
  refine ⟨rfl, rfl, rfl, ?_⟩
  intro h
  cases h

/-- C3 counterexample: in `dupWorld`, the name-based references
`⟨g, Cat, []⟩` and `⟨g, Cat2, [CName]⟩` resolve to `emptyOldCat` and
`newCatC`, run `rB`'s fetched selection set `{v1: a}` satisfies the
invariant, yet the selection set written back by `moveRunToCategoryWithId`
is `[{v1, a}, {v1, c}]`, which carries two values for variable `v1`: the
filter only strips a value that exactly matches the old category's map, so
the stray `{v1: a}` survives and the new `{v1: c}` is appended next to it. -/
theorem moveRunToCategoryWithId_can_duplicate_variable :
    atMostOneValuePerVariable [{ variableId := "v1", valueId := "a" }]
      ∧ (getSubcategoryIdFromNames dupWorld
          { gameUrl := "g", categoryName := "Cat", subcategoryNames := [] }).2
        = some emptyOldCat
      ∧ (getSubcategoryIdFromNames dupWorld
          { gameUrl := "g", categoryName := "Cat2", subcategoryNames := ["CName"] }).2
        = some newCatC
      ∧ putValuesOf (moveRunToCategoryWithId dupWorld "rB" emptyOldCat newCatC).1
        = [ValuesField.list [{ variableId := "v1", valueId := "a" },
                             { variableId := "v1", valueId := "c" }]]
      ∧ ¬ atMostOneValuePerVariable
          [{ variableId := "v1", valueId := "a" },
           { variableId := "v1", valueId := "c" }] := by
  refine ⟨by decide, rfl, rfl, rfl, by decide⟩

/-- C7 counterexample: in `laterFailWorld` the resolution and the first page
fetch succeed (with `pagination.pages = 3`) but the fetch of page 2 returns
absent; `getAllRunsInCategory` then evaluates `leaderboard.runList` on
`null` and the promise rejects (`thrown`) — it does not return a run-id
sequence with the failed page omitted (which would be `["p1a"]`, or
`["p1a", "p3a"]` had the loop reached page 3). -/
theorem getAllRunsInCategory_later_page_failure_not_tolerated :
    (getAllRunsInCategory laterFailWorld fixtureCategory).2 = JsResult.thrown
      ∧ (getAllRunsInCategory laterFailWorld fixtureCategory).2
          ≠ JsResult.value ["p1a"]
      ∧ (getAllRunsInCategory laterFailWorld fixtureCategory).2
          ≠ JsResult.value ["p1a", "p3a"] := by
  refine ⟨rfl, ?_, ?_⟩ <;> intro h <;> simp only [getAllRunsInCategory] at h <;> cases h

/-- C2: when the freshly fetched settings carry the selection set
`{v1: a, v2: b}`, the old category maps `v1 -> a` and the new category maps
`v1 -> c` (with `v1 ≠ v2`), the settings written back by
`moveRunToCategoryWithId` carry exactly the selections
`[{v2, b}, {v1, c}]`, which as a set is `{v1: c, v2: b}`: the old `v1`
value is replaced by `c` and the unrelated `v2` selection is untouched. -/
theorem moveRunToCategoryWithId_replaces_and_keeps
    (w : World) (runId a b c v1 v2 : String) (s : RunSettings)
    (oldCat newCat : SpeedrunCategoryId)
    (hs : w.runSettings runId = some s)
    (hv : s.values = some [{ variableId := v1, valueId := a },
                           { variableId := v2, valueId := b }])
    (hold : oldCat.subcategories = [{ variableId := v1, valueId := a }])
    (hnew : newCat.subcategories = [{ variableId := v1, valueId := c }])
    (hne : v1 ≠ v2) :
    putValuesOf (moveRunToCategoryWithId w runId oldCat newCat).1
        = [ValuesField.list [{ variableId := v2, valueId := b },
                             { variableId := v1, valueId := c }]]
      ∧ List.Perm [SubcatValue.mk v2 b, SubcatValue.mk v1 c]
          [SubcatValue.mk v1 c, SubcatValue.mk v2 b] := by
  refine ⟨?_, List.Perm.swap _ _ _⟩
  have hveq : (v2 == v1) = false := beq_eq_false_iff_ne.mpr (Ne.symm hne)
  have hmv : moveNewValues s.values oldCat newCat
      = some [{ variableId := v2, valueId := b },
              { variableId := v1, valueId := c }] := by
    rw [hv]
    simp only [moveNewValues, subcategoryIdsMap, assignSubcategoryIds, hold, hnew,
      List.filter_cons, List.filter_nil, List.map_cons, List.map_nil]
    simp [hveq]
  simp only [moveRunToCategoryWithId, getRunSettings, hs, hmv, editRun,
    putRunSettings, objectAssign]
  simp [putValuesOf]

/-- C10: when the freshly fetched settings have a `null` values field,
`moveRunToCategoryWithId` writes back settings whose `values` field is
`undefined` (the optional chain yields `undefined` and `Object.assign`
copies it over): the new category's selections are not appended at all,
while the `categoryId` is still changed to the new category's id. -/
theorem moveRunToCategoryWithId_null_values_written_undefined
    (w : World) (runId : String) (s : RunSettings)
    (oldCat newCat : SpeedrunCategoryId)
    (hs : w.runSettings runId = some s)
    (hv : s.values = none) :
    putValuesOf (moveRunToCategoryWithId w runId oldCat newCat).1
        = [ValuesField.undef]
      ∧ putCategoryIdsOf (moveRunToCategoryWithId w runId oldCat newCat).1
        = [newCat.categoryId] := by
  have hmv : moveNewValues s.values oldCat newCat = none := by
    rw [hv]
    rfl
  simp only [moveRunToCategoryWithId, getRunSettings, hs, hmv, editRun,
    putRunSettings, objectAssign]
  constructor
  · simp [putValuesOf]
  · simp [putCategoryIdsOf]

/-- Witness for C2 at `settingsWorld`, run `rA`, old `v1 -> a`,
new `v1 -> c`. -/
theorem moveRunToCategoryWithId_replaces_and_keeps_witness :
    (settingsWorld.runSettings "rA" = some settingsTwo
        ∧ settingsTwo.values = some [{ variableId := "v1", valueId := "a" },
                                     { variableId := "v2", valueId := "b" }]
        ∧ oldCatA.subcategories = [{ variableId := "v1", valueId := "a" }]
        ∧ newCatC.subcategories = [{ variableId := "v1", valueId := "c" }]
        ∧ ("v1" : String) ≠ "v2")
      ∧ putValuesOf (moveRunToCategoryWithId settingsWorld "rA" oldCatA newCatC).1
          = [ValuesField.list [{ variableId := "v2", valueId := "b" },
                               { variableId := "v1", valueId := "c" }]]
      ∧ List.Perm [SubcatValue.mk "v2" "b", SubcatValue.mk "v1" "c"]
          [SubcatValue.mk "v1" "c", SubcatValue.mk "v2" "b"] :=
  ⟨⟨rfl, rfl, rfl, rfl, by decide⟩,
    moveRunToCategoryWithId_replaces_and_keeps settingsWorld "rA" "a" "b" "c"
      "v1" "v2" settingsTwo oldCatA newCatC rfl rfl rfl rfl (by decide)⟩

/-- C4: full category resolution returns absent (`null`) as soon as any
stage fails — the game snapshot fetch, the category-name lookup, or the
resolution of any one named subcategory — even if other names would resolve;
no partially filled id-based reference is ever returned. -/
theorem getSubcategoryIdFromNames_absent_on_any_failure
    (w : World) (category : SpeedrunCategory)
    (h : w.gameDataByUrl category.gameUrl = none
      ∨ (getCategoryId w category.gameUrl category.categoryName).2 = none
      ∨ ∃ n ∈ category.subcategoryNames,
          (getSubcategoryVariableAndValue w category.gameUrl
            category.categoryName n).2 = none) :
    (getSubcategoryIdFromNames w category).2 = none := by
  rcases h with h1 | h2 | ⟨n, hn, hfail⟩
  · simp [getSubcategoryIdFromNames, getGameDataByUrl, h1]
  · cases hgd : w.gameDataByUrl category.gameUrl with
    | none => simp [getSubcategoryIdFromNames, getGameDataByUrl, hgd]
    | some gd => simp [getSubcategoryIdFromNames, getGameDataByUrl, hgd, h2]
  · have hres := resolveSubcategoryNames_none_of_mem w category.gameUrl
      category.categoryName hn hfail
    cases hgd : w.gameDataByUrl category.gameUrl with
    | none => simp [getSubcategoryIdFromNames, getGameDataByUrl, hgd]
    | some gd =>
        cases hcid : (getCategoryId w category.gameUrl category.categoryName).2 with
        | none => simp [getSubcategoryIdFromNames, getGameDataByUrl, hgd, hcid]
        | some cid =>
            simp [getSubcategoryIdFromNames, getGameDataByUrl, hgd, hcid, hres]

/-- Witness for C4 at `gameWorld` with names `["NTSC", "PAL"]`: the first
name resolves but `PAL` does not, and the whole resolution is absent. -/
theorem getSubcategoryIdFromNames_absent_witness :
    ((getSubcategoryVariableAndValue gameWorld "g" "Cat" "NTSC").2
        = some { variableId := "var1", valueId := "val1" }
      ∧ (getSubcategoryVariableAndValue gameWorld "g" "Cat" "PAL").2 = none)
      ∧ (getSubcategoryIdFromNames gameWorld
          { gameUrl := "g", categoryName := "Cat",
            subcategoryNames := ["NTSC", "PAL"] }).2 = none :=
  ⟨⟨rfl, rfl⟩,
    getSubcategoryIdFromNames_absent_on_any_failure gameWorld
      { gameUrl := "g", categoryName := "Cat", subcategoryNames := ["NTSC", "PAL"] }
      (Or.inr (Or.inr ⟨"PAL", by decide, rfl⟩))⟩

/-- C5: when a name-based reference fully resolves, the output
`subcategories` has the same length as the input `subcategoryNames`, and the
pair at each position `i` is exactly what the `i`-th input name resolves to:
output order matches input order positionally. -/
theorem getSubcategoryIdFromNames_positional
    (w : World) (category : SpeedrunCategory) (r : SpeedrunCategoryId)
    (h : (getSubcategoryIdFromNames w category).2 = some r) :
    r.subcategories.length = category.subcategoryNames.length
      ∧ ∀ (i : Nat) (h1 : i < category.subcategoryNames.length)
          (h2 : i < r.subcategories.length),
          (getSubcategoryVariableAndValue w category.gameUrl
              category.categoryName
              (category.subcategoryNames.get ⟨i, h1⟩)).2
            = some (r.subcategories.get ⟨i, h2⟩) := by
  cases hgd : w.gameDataByUrl category.gameUrl with
  | none => simp [getSubcategoryIdFromNames, getGameDataByUrl, hgd] at h
  | some gd =>
      cases hcid : (getCategoryId w category.gameUrl category.categoryName).2 with
      | none => simp [getSubcategoryIdFromNames, getGameDataByUrl, hgd, hcid] at h
      | some cid =>
          cases hres : (resolveSubcategoryNames w category.gameUrl
              category.categoryName category.subcategoryNames).2 with
          | none =>
              simp [getSubcategoryIdFromNames, getGameDataByUrl, hgd, hcid, hres] at h
          | some l =>
              simp only [getSubcategoryIdFromNames, getGameDataByUrl, hgd, hcid,
                hres] at h
              injection h with h
              subst h
              have hf := resolveSubcategoryNames_forall2 w category.gameUrl
                category.categoryName category.subcategoryNames l hres
              have hg := List.forall₂_iff_get.mp hf
              exact ⟨hg.1.symm, fun i h1 h2 => hg.2 i h1 h2⟩

/-- Witness for C5 at `gameWorld` with the single name `NTSC`. -/
theorem getSubcategoryIdFromNames_positional_witness :
    (getSubcategoryIdFromNames gameWorld ntscCategory).2 = some resolvedNTSC
      ∧ resolvedNTSC.subcategories.length = ntscCategory.subcategoryNames.length
      ∧ (getSubcategoryVariableAndValue gameWorld ntscCategory.gameUrl
            ntscCategory.categoryName "NTSC").2
        = some { variableId := "var1", valueId := "val1" } :=
  ⟨rfl,
    (getSubcategoryIdFromNames_positional gameWorld ntscCategory resolvedNTSC rfl).1,
    (getSubcategoryIdFromNames_positional gameWorld ntscCategory resolvedNTSC rfl).2
      0 (by decide) (by decide)⟩

/-- C8: every `{variableId, valueId}` pair in the `subcategories` of a
successful resolution is scoped to the resolved category id: its variable
exists in the game snapshot, has `categoryId` equal to the resolved id, is
flagged `isSubcategory`, and the `valueId` names one of that variable's
values. -/
theorem getSubcategoryIdFromNames_subcategories_scoped
    (w : World) (category : SpeedrunCategory) (r : SpeedrunCategoryId)
    (gd : GameData)
    (h : (getSubcategoryIdFromNames w category).2 = some r)
    (hgd : w.gameDataByUrl category.gameUrl = some gd) :
    ∀ p ∈ r.subcategories, pairScopedToCategory gd r.categoryId p = true := by
  cases hcid : (getCategoryId w category.gameUrl category.categoryName).2 with
  | none => simp [getSubcategoryIdFromNames, getGameDataByUrl, hgd, hcid] at h
  | some cid =>
      cases hres : (resolveSubcategoryNames w category.gameUrl
          category.categoryName category.subcategoryNames).2 with
      | none =>
          simp [getSubcategoryIdFromNames, getGameDataByUrl, hgd, hcid, hres] at h
      | some l =>
          simp only [getSubcategoryIdFromNames, getGameDataByUrl, hgd, hcid,
            hres] at h
          injection h with h
          subst h
          intro p hp
          have hf := resolveSubcategoryNames_forall2 w category.gameUrl
            category.categoryName category.subcategoryNames l hres
          obtain ⟨n, _, hR⟩ := forall2_mem_right hf p hp
          obtain ⟨gd', cid', hgd', hcid', hpair⟩ :=
            getSubcategoryVariableAndValue_scoped w category.gameUrl
              category.categoryName n p hR
          rw [hgd] at hgd'
          injection hgd' with hgd'
          rw [hcid] at hcid'
          injection hcid' with hcid'
          subst hgd'
          subst hcid'
          exact hpair

/-- Witness for C8 at `gameWorld` with the single name `NTSC`. -/
theorem getSubcategoryIdFromNames_subcategories_scoped_witness :
    ((getSubcategoryIdFromNames gameWorld ntscCategory).2 = some resolvedNTSC
      ∧ gameWorld.gameDataByUrl ntscCategory.gameUrl = some richGameData)
      ∧ pairScopedToCategory richGameData resolvedNTSC.categoryId
          { variableId := "var1", valueId := "val1" } = true :=
  ⟨⟨rfl, rfl⟩,
    getSubcategoryIdFromNames_subcategories_scoped gameWorld ntscCategory
      resolvedNTSC richGameData rfl rfl
      { variableId := "var1", valueId := "val1" } (by decide)⟩

/-- The filter-plus-append selection set built by `moveRunToCategoryWithId`
preserves the one-value-per-variable invariant, provided the new category's
own selections satisfy it and the old category's map strips every fetched
selection whose variable also occurs among the new category's selections. -/
theorem moveNewValues_list_invariant (vs : List SubcatValue)
    (oldCat newCat : SpeedrunCategoryId)
    (hinv : atMostOneValuePerVariable vs)
    (hnew : atMostOneValuePerVariable newCat.subcategories)
    (hstrip : ∀ v ∈ vs,
        (∃ n ∈ newCat.subcategories, n.variableId = v.variableId) →
        subcategoryIdsMap oldCat.subcategories v.variableId = some v.valueId) :
    atMostOneValuePerVariable
      ((vs.filter (fun value =>
          !(some value.valueId
            == subcategoryIdsMap oldCat.subcategories value.variableId)))
        ++ newCat.subcategories.map
            (fun s => { variableId := s.variableId, valueId := s.valueId })) := by
  have hmapid : newCat.subcategories.map
      (fun s : SubcatValue =>
        ({ variableId := s.variableId, valueId := s.valueId } : SubcatValue))
      = newCat.subcategories := by
    have he : (fun s : SubcatValue =>
        ({ variableId := s.variableId, valueId := s.valueId } : SubcatValue))
        = fun s => s := funext fun s => rfl
    rw [he]
    exact List.map_id _
  rw [hmapid]
  intro x hx y hy hxy
  have hkept : ∀ z : SubcatValue,
      z ∈ vs.filter (fun value =>
        !(some value.valueId
          == subcategoryIdsMap oldCat.subcategories value.variableId)) →
      z ∈ vs ∧ subcategoryIdsMap oldCat.subcategories z.variableId
        ≠ some z.valueId := by
    intro z hz
    obtain ⟨hz1, hz2⟩ := List.mem_filter.mp hz
    refine ⟨hz1, ?_⟩
    rw [Bool.not_eq_eq_eq_not, Bool.not_true, beq_eq_false_iff_ne] at hz2
    exact fun hc => hz2 hc.symm
  rcases List.mem_append.mp hx with hx1 | hx2
  · rcases List.mem_append.mp hy with hy1 | hy2
    · exact hinv x (hkept x hx1).1 y (hkept y hy1).1 hxy
    · exact absurd (hstrip x (hkept x hx1).1 ⟨y, hy2, hxy.symm⟩) (hkept x hx1).2
  · rcases List.mem_append.mp hy with hy1 | hy2
    · exact absurd (hstrip y (hkept y hy1).1 ⟨x, hx2, hxy⟩) (hkept y hy1).2
    · exact hnew x hx2 y hy2 hxy

/-- C3 (amended): the write-back invariant holds when the new category's
selections have at most one value per variable and every fetched selection
whose variable also occurs among the new category's selections is stripped
by the old category's map (i.e. the old map assigns that variable exactly
the fetched value).  Without those two premises the invariant can break, see
`moveRunToCategoryWithId_can_duplicate_variable`. -/
theorem moveRunToCategoryWithId_invariant_preserved
    (w : World) (runId : String) (oldCat newCat : SpeedrunCategoryId)
    (s : RunSettings)
    (hs : w.runSettings runId = some s)
    (hinv : atMostOneValuePerVariable (s.values.getD []))
    (hnew : atMostOneValuePerVariable newCat.subcategories)
    (hstrip : ∀ v ∈ s.values.getD [],
        (∃ n ∈ newCat.subcategories, n.variableId = v.variableId) →
        subcategoryIdsMap oldCat.subcategories v.variableId = some v.valueId) :
    ∀ vf ∈ putValuesOf (moveRunToCategoryWithId w runId oldCat newCat).1,
      valuesFieldOk vf := by
  intro vf hvf
  simp only [moveRunToCategoryWithId, getRunSettings, hs, editRun,
    putRunSettings, objectAssign, putValuesOf, List.cons_append,
    List.nil_append, List.filterMap_cons, List.filterMap_nil,
    List.mem_singleton] at hvf
  subst hvf
  cases hv : s.values with
  | none => exact trivial
  | some vs =>
      rw [hv] at hinv hstrip
      simp only [Option.getD_some] at hinv hstrip
      exact moveNewValues_list_invariant vs oldCat newCat hinv hnew hstrip

/-- Witness for the amended C3 at `settingsWorld`, run `rA`, old `v1 -> a`,
new `v1 -> c`. -/
theorem moveRunToCategoryWithId_invariant_preserved_witness :
    (settingsWorld.runSettings "rA" = some settingsTwo
        ∧ atMostOneValuePerVariable (settingsTwo.values.getD [])
        ∧ atMostOneValuePerVariable newCatC.subcategories)
      ∧ valuesFieldOk
          (ValuesField.list [{ variableId := "v2", valueId := "b" },
                             { variableId := "v1", valueId := "c" }]) :=
  ⟨⟨rfl, by decide, by decide⟩,
    moveRunToCategoryWithId_invariant_preserved settingsWorld "rA" oldCatA
      newCatC settingsTwo rfl (by decide) (by decide) (by decide)
      (ValuesField.list [{ variableId := "v2", valueId := "b" },
                         { variableId := "v1", valueId := "c" }])
      (by decide)⟩

/-- If any page visited by the continuation loop fails to fetch, the loop's
result is a rejected promise. -/
theorem getAllRunsPageLoop_thrown (w : World) (category : SpeedrunCategory)
    (fp : LeaderboardFilterParams) :
    ∀ (pages : List Nat) (runs : List GameRun) (i : Nat), i ∈ pages →
      (getLeaderboardForSubcategory w category fp i).2 = none →
      (getAllRunsPageLoop w category fp pages runs).2 = JsResult.thrown := by
  intro pages
  induction pages with
  | nil => intro runs i hi _; cases hi
  | cons p ps ih =>
      intro runs i hi hfail
      cases hp : (getLeaderboardForSubcategory w category fp p).2 with
      | none => simp [getAllRunsPageLoop, hp]
      | some lb =>
          rcases List.mem_cons.mp hi with rfl | hi'
          · rw [hp] at hfail
            cases hfail
          · simp only [getAllRunsPageLoop, hp]
            exact ih (runs ++ lb.runList) i hi' hfail

/-- C7 (amended): when resolution and the first page fetch succeed but the
fetch of some later loop page returns absent, `getAllRunsInCategory` does
NOT return a run-id sequence with that page omitted — reading `runList` on
the absent leaderboard makes the promise reject (`thrown`). -/
theorem getAllRunsInCategory_later_page_failure_throws
    (w : World) (category : SpeedrunCategory) (lb : GameLeaderboard) (p : Nat)
    (h1 : (getLeaderboardForSubcategory w category shownFilter 1).2 = some lb)
    (hp : p ∈ laterPages lb.pagination.pages)
    (h2 : (getLeaderboardForSubcategory w category shownFilter p).2 = none) :
    (getAllRunsInCategory w category).2 = JsResult.thrown := by
  have hloop := getAllRunsPageLoop_thrown w category shownFilter
    (laterPages lb.pagination.pages) ([] ++ lb.runList) p hp h2
  simp only [getAllRunsInCategory, h1, hloop]

/-- Witness for the amended C7 at `laterFailWorld` (page 2 of 3 fails). -/
theorem getAllRunsInCategory_later_page_failure_throws_witness :
    ((getLeaderboardForSubcategory laterFailWorld fixtureCategory
        shownFilter 1).2 = some laterFailPage1
      ∧ 2 ∈ laterPages laterFailPage1.pagination.pages
      ∧ (getLeaderboardForSubcategory laterFailWorld fixtureCategory
          shownFilter 2).2 = none)
      ∧ (getAllRunsInCategory laterFailWorld fixtureCategory).2
        = JsResult.thrown :=
  ⟨⟨rfl, by decide, rfl⟩,
    getAllRunsInCategory_later_page_failure_throws laterFailWorld
      fixtureCategory laterFailPage1 2 rfl (by decide) rfl⟩

theorem put_not_mem_getGameDataByUrl (w : World) (u : String)
    (fs : FinalSettings) (av : Bool) :
    Request.putRunSettings fs av ∉ (getGameDataByUrl w u).1 := by
  simp [getGameDataByUrl]

theorem put_not_mem_getCategoryId (w : World) (u c : String)
    (fs : FinalSettings) (av : Bool) :
    Request.putRunSettings fs av ∉ (getCategoryId w u c).1 := by
  cases h : w.gameDataByUrl u <;>
    simp [getCategoryId, getGameDataByUrl, h]

theorem put_not_mem_getAllVariablesInCategory (w : World) (u c : String)
    (fs : FinalSettings) (av : Bool) :
    Request.putRunSettings fs av ∉ (getAllVariablesInCategory w u c).1 := by
  cases h : w.gameDataByUrl u with
  | none => simp [getAllVariablesInCategory, getGameDataByUrl, h]
  | some gd =>
      cases h2 : (getCategoryId w u c).2 with
      | none =>
          simp only [getAllVariablesInCategory, getGameDataByUrl, h, h2]
          intro hm
          rcases List.mem_append.mp hm with hm | hm
          · exact absurd hm (by simp)
          · exact put_not_mem_getCategoryId w u c fs av hm
      | some cid =>
          simp only [getAllVariablesInCategory, getGameDataByUrl, h, h2]
          intro hm
          rcases List.mem_append.mp hm with hm | hm
          · exact absurd hm (by simp)
          · exact put_not_mem_getCategoryId w u c fs av hm

theorem put_not_mem_getAllSubcategoriesInCategory (w : World) (u c : String)
    (fs : FinalSettings) (av : Bool) :
    Request.putRunSettings fs av ∉ (getAllSubcategoriesInCategory w u c).1 := by
  cases hv : (getAllVariablesInCategory w u c).2 with
  | none =>
      simp only [getAllSubcategoriesInCategory, hv]
      exact put_not_mem_getAllVariablesInCategory w u c fs av
  | some vars =>
      cases h : w.gameDataByUrl u with
      | none =>
          simp only [getAllSubcategoriesInCategory, hv, getGameDataByUrl, h]
          intro hm
          rcases List.mem_append.mp hm with hm | hm
          · exact put_not_mem_getAllVariablesInCategory w u c fs av hm
          · exact absurd hm (by simp)
      | some gd =>
          simp only [getAllSubcategoriesInCategory, hv, getGameDataByUrl, h]
          intro hm
          rcases List.mem_append.mp hm with hm | hm
          · exact put_not_mem_getAllVariablesInCategory w u c fs av hm
          · exact absurd hm (by simp)

theorem put_not_mem_getSubcategoryVariableAndValue (w : World) (u c n : String)
    (fs : FinalSettings) (av : Bool) :
    Request.putRunSettings fs av
      ∉ (getSubcategoryVariableAndValue w u c n).1 := by
  cases hsubs : (getAllSubcategoriesInCategory w u c).2 with
  | none =>
      simp only [getSubcategoryVariableAndValue, hsubs]
      exact put_not_mem_getAllSubcategoriesInCategory w u c fs av
  | some subs =>
      cases hfind : subs.find? (fun s => s.name == n) <;>
        · simp only [getSubcategoryVariableAndValue, hsubs, hfind]
          exact put_not_mem_getAllSubcategoriesInCategory w u c fs av

theorem put_not_mem_resolveSubcategoryNames (w : World) (u c : String)
    (fs : FinalSettings) (av : Bool) :
    ∀ ns : List String,
      Request.putRunSettings fs av ∉ (resolveSubcategoryNames w u c ns).1
  | [] => by simp [resolveSubcategoryNames]
  | n :: ns => by
      cases hn : (getSubcategoryVariableAndValue w u c n).2 with
      | none =>
          simp only [resolveSubcategoryNames, hn]
          exact put_not_mem_getSubcategoryVariableAndValue w u c n fs av
      | some v =>
          cases hrest : (resolveSubcategoryNames w u c ns).2 <;>
            · simp only [resolveSubcategoryNames, hn, hrest]
              intro hm
              rcases List.mem_append.mp hm with hm | hm
              · exact put_not_mem_getSubcategoryVariableAndValue w u c n fs av hm
              · exact put_not_mem_resolveSubcategoryNames w u c fs av ns hm

theorem put_not_mem_getSubcategoryIdFromNames (w : World)
    (category : SpeedrunCategory) (fs : FinalSettings) (av : Bool) :
    Request.putRunSettings fs av ∉ (getSubcategoryIdFromNames w category).1 := by
  cases hgd : w.gameDataByUrl category.gameUrl with
  | none =>
      simp [getSubcategoryIdFromNames, getGameDataByUrl, hgd]
  | some gd =>
      cases hcid : (getCategoryId w category.gameUrl category.categoryName).2 with
      | none =>
          simp only [getSubcategoryIdFromNames, getGameDataByUrl, hgd, hcid]
          intro hm
          rcases List.mem_append.mp hm with hm | hm
          · exact absurd hm (by simp)
          · exact put_not_mem_getCategoryId w category.gameUrl
              category.categoryName fs av hm
      | some cid =>
          cases hres : (resolveSubcategoryNames w category.gameUrl
              category.categoryName category.subcategoryNames).2 <;>
            · simp only [getSubcategoryIdFromNames, getGameDataByUrl, hgd, hcid, hres]
              intro hm
              rcases List.mem_append.mp hm with hm | hm
              · rcases List.mem_append.mp hm with hm | hm
                · exact absurd hm (by simp)
                · exact put_not_mem_getCategoryId w category.gameUrl
                    category.categoryName fs av hm
              · exact put_not_mem_resolveSubcategoryNames w category.gameUrl
                  category.categoryName fs av category.subcategoryNames hm

theorem put_not_mem_getLeaderboardForSubcategory (w : World)
    (category : SpeedrunCategory) (lp : LeaderboardFilterParams) (page : Nat)
    (fs : FinalSettings) (av : Bool) :
    Request.putRunSettings fs av
      ∉ (getLeaderboardForSubcategory w category lp page).1 := by
  cases hsub : (getSubcategoryIdFromNames w category).2 with
  | none =>
      simp only [getLeaderboardForSubcategory, hsub]
      exact put_not_mem_getSubcategoryIdFromNames w category fs av
  | some subcategory =>
      cases hlb : w.leaderboard subcategory.gameId subcategory.categoryId
          (some (subcategory.subcategories.map
            (fun s => { variableId := s.variableId, valueIds := [s.valueId] })))
          lp.obsolete (some page) <;>
        · simp only [getLeaderboardForSubcategory, hsub, getGameLeaderboard, hlb]
          intro hm
          rcases List.mem_append.mp hm with hm | hm
          · exact put_not_mem_getSubcategoryIdFromNames w category fs av hm
          · exact absurd hm (by simp)

theorem put_not_mem_getAllRunsPageLoop (w : World)
    (category : SpeedrunCategory) (fp : LeaderboardFilterParams)
    (fs : FinalSettings) (av : Bool) :
    ∀ (pages : List Nat) (runs : List GameRun),
      Request.putRunSettings fs av
        ∉ (getAllRunsPageLoop w category fp pages runs).1
  | [], runs => by simp [getAllRunsPageLoop]
  | p :: ps, runs => by
      cases hp : (getLeaderboardForSubcategory w category fp p).2 with
      | none =>
          simp only [getAllRunsPageLoop, hp]
          exact put_not_mem_getLeaderboardForSubcategory w category fp p fs av
      | some lb =>
          simp only [getAllRunsPageLoop, hp]
          intro hm
          rcases List.mem_append.mp hm with hm | hm
          · exact put_not_mem_getLeaderboardForSubcategory w category fp p fs av hm
          · exact put_not_mem_getAllRunsPageLoop w category fp fs av ps
              (runs ++ lb.runList) hm

theorem put_not_mem_getAllRunsInCategory (w : World)
    (category : SpeedrunCategory) (fs : FinalSettings) (av : Bool) :
    Request.putRunSettings fs av ∉ (getAllRunsInCategory w category).1 := by
  cases h1 : (getLeaderboardForSubcategory w category shownFilter 1).2 with
  | none =>
      simp only [getAllRunsInCategory, h1]
      exact put_not_mem_getLeaderboardForSubcategory w category shownFilter 1 fs av
  | some lb =>
      simp only [getAllRunsInCategory, h1]
      intro hm
      rcases List.mem_append.mp hm with hm | hm
      · exact put_not_mem_getLeaderboardForSubcategory w category shownFilter 1
          fs av hm
      · exact put_not_mem_getAllRunsPageLoop w category shownFilter fs av
          (laterPages lb.pagination.pages) ([] ++ lb.runList) hm

theorem editRun_put_autoverify (w : World) (runId : String)
    (params : EditParams) (fs : FinalSettings) (av : Bool)
    (h : Request.putRunSettings fs av ∈ (editRun w runId params).1) :
    av = true := by
  cases hs : w.runSettings runId with
  | none => simp [editRun, getRunSettings, hs] at h
  | some s =>
      simp [editRun, getRunSettings, putRunSettings, hs] at h
      exact h.2

theorem editAllRunsLoop_put_autoverify (w : World) (params : EditParams) :
    ∀ (runs : List String) (fs : FinalSettings) (av : Bool),
      Request.putRunSettings fs av ∈ editAllRunsLoop w params runs → av = true
  | [], fs, av, h => by cases h
  | r :: rest, fs, av, h => by
      simp only [editAllRunsLoop] at h
      rcases List.mem_append.mp h with h | h
      · exact editRun_put_autoverify w r params fs av h
      · exact editAllRunsLoop_put_autoverify w params rest fs av h

theorem moveRunToCategoryWithId_put_autoverify (w : World) (runId : String)
    (oldCat newCat : SpeedrunCategoryId) (fs : FinalSettings) (av : Bool)
    (h : Request.putRunSettings fs av
      ∈ (moveRunToCategoryWithId w runId oldCat newCat).1) :
    av = true := by
  cases hs : w.runSettings runId with
  | none => simp [moveRunToCategoryWithId, getRunSettings, hs] at h
  | some s =>
      simp only [moveRunToCategoryWithId, getRunSettings, hs] at h
      rcases List.mem_append.mp h with h | h
      · exact absurd h (by simp)
      · exact editRun_put_autoverify w runId _ fs av h

theorem moveRunToCategory_put_autoverify (w : World) (runId : String)
    (oldCategory newCategory : SpeedrunCategory) (fs : FinalSettings)
    (av : Bool)
    (h : Request.putRunSettings fs av
      ∈ (moveRunToCategory w runId oldCategory newCategory).1) :
    av = true := by
  cases h1 : (getSubcategoryIdFromNames w oldCategory).2 with
  | none =>
      simp only [moveRunToCategory, h1] at h
      exact absurd h (put_not_mem_getSubcategoryIdFromNames w oldCategory fs av)
  | some oldId =>
      cases h2 : (getSubcategoryIdFromNames w newCategory).2 with
      | none =>
          simp only [moveRunToCategory, h1, h2] at h
          rcases List.mem_append.mp h with h | h
          · exact absurd h (put_not_mem_getSubcategoryIdFromNames w oldCategory fs av)
          · exact absurd h (put_not_mem_getSubcategoryIdFromNames w newCategory fs av)
      | some newId =>
          simp only [moveRunToCategory, h1, h2] at h
          rcases List.mem_append.mp h with h | h
          · rcases List.mem_append.mp h with h | h
            · exact absurd h
                (put_not_mem_getSubcategoryIdFromNames w oldCategory fs av)
            · exact absurd h
                (put_not_mem_getSubcategoryIdFromNames w newCategory fs av)
          · exact moveRunToCategoryWithId_put_autoverify w runId oldId newId fs av h

theorem moveAllRunsLoop_put_autoverify (w : World)
    (oldId newId : SpeedrunCategoryId) :
    ∀ (runs : List String) (fs : FinalSettings) (av : Bool),
      Request.putRunSettings fs av ∈ moveAllRunsLoop w oldId newId runs →
      av = true
  | [], fs, av, h => by cases h
  | r :: rest, fs, av, h => by
      simp only [moveAllRunsLoop] at h
      rcases List.mem_append.mp h with h | h
      · exact moveRunToCategoryWithId_put_autoverify w r oldId newId fs av h
      · exact moveAllRunsLoop_put_autoverify w oldId newId rest fs av h

theorem editAllRunsInCategory_put_autoverify (w : World)
    (category : SpeedrunCategory) (params : EditParams) (fs : FinalSettings)
    (av : Bool)
    (h : Request.putRunSettings fs av
      ∈ (editAllRunsInCategory w category params).1) :
    av = true := by
  cases hr : (getAllRunsInCategory w category).2 with
  | value runs =>
      simp only [editAllRunsInCategory, hr] at h
      rcases List.mem_append.mp h with h | h
      · exact absurd h (put_not_mem_getAllRunsInCategory w category fs av)
      · exact editAllRunsLoop_put_autoverify w params runs fs av h
  | null =>
      simp only [editAllRunsInCategory, hr] at h
      exact absurd h (put_not_mem_getAllRunsInCategory w category fs av)
  | undef =>
      simp only [editAllRunsInCategory, hr] at h
      exact absurd h (put_not_mem_getAllRunsInCategory w category fs av)
  | thrown =>
      simp only [editAllRunsInCategory, hr] at h
      exact absurd h (put_not_mem_getAllRunsInCategory w category fs av)

theorem moveAllRunsInCategory_put_autoverify (w : World)
    (category newCategory : SpeedrunCategory) (fs : FinalSettings) (av : Bool)
    (h : Request.putRunSettings fs av
      ∈ (moveAllRunsInCategory w category newCategory).1) :
    av = true := by
  cases hr : (getAllRunsInCategory w category).2 with
  | value runs =>
      cases h1 : (getSubcategoryIdFromNames w category).2 with
      | none =>
          simp only [moveAllRunsInCategory, hr, h1] at h
          rcases List.mem_append.mp h with h | h
          · exact absurd h (put_not_mem_getAllRunsInCategory w category fs av)
          · exact absurd h
              (put_not_mem_getSubcategoryIdFromNames w category fs av)
      | some oldId =>
          cases h2 : (getSubcategoryIdFromNames w newCategory).2 with
          | none =>
              simp only [moveAllRunsInCategory, hr, h1, h2] at h
              rcases List.mem_append.mp h with h | h
              · rcases List.mem_append.mp h with h | h
                · exact absurd h (put_not_mem_getAllRunsInCategory w category fs av)
                · exact absurd h
                    (put_not_mem_getSubcategoryIdFromNames w category fs av)
              · exact absurd h
                  (put_not_mem_getSubcategoryIdFromNames w newCategory fs av)
          | some newId =>
              simp only [moveAllRunsInCategory, hr, h1, h2] at h
              rcases List.mem_append.mp h with h | h
              · rcases List.mem_append.mp h with h | h
                · rcases List.mem_append.mp h with h | h
                  · exact absurd h (put_not_mem_getAllRunsInCategory w category fs av)
                  · exact absurd h
                      (put_not_mem_getSubcategoryIdFromNames w category fs av)
                · exact absurd h
                    (put_not_mem_getSubcategoryIdFromNames w newCategory fs av)
              · exact moveAllRunsLoop_put_autoverify w oldId newId runs fs av h
  | null =>
      simp only [moveAllRunsInCategory, hr] at h
      exact absurd h (put_not_mem_getAllRunsInCategory w category fs av)
  | undef =>
      simp only [moveAllRunsInCategory, hr] at h
      exact absurd h (put_not_mem_getAllRunsInCategory w category fs av)
  | thrown =>
      simp only [moveAllRunsInCategory, hr] at h
      exact absurd h (put_not_mem_getAllRunsInCategory w category fs av)

/-- C9: every `PutRunSettings` request any client operation ever issues —
whether through `editRun` directly or through the bulk/move operations, all
of which write only via `editRun` — carries `autoverify = true`; the
read-only operations issue no settings write at all, so no public operation
ever writes settings with `autoverify = false`. -/
theorem all_settings_writes_autoverify (w : World) (runId : String)
    (params editParams : EditParams)
    (category newCategory : SpeedrunCategory)
    (oldCategoryId newCategoryId : SpeedrunCategoryId)
    (fs : FinalSettings) (av : Bool)
    (h : Request.putRunSettings fs av ∈ (editRun w runId params).1
      ∨ Request.putRunSettings fs av
          ∈ (editAllRunsInCategory w category editParams).1
      ∨ Request.putRunSettings fs av
          ∈ (moveRunToCategoryWithId w runId oldCategoryId newCategoryId).1
      ∨ Request.putRunSettings fs av
          ∈ (moveRunToCategory w runId category newCategory).1
      ∨ Request.putRunSettings fs av
          ∈ (moveAllRunsInCategory w category newCategory).1
      ∨ Request.putRunSettings fs av ∈ (getAllRunsInCategory w category).1
      ∨ Request.putRunSettings fs av ∈ (getSubcategoryIdFromNames w category).1) :
    av = true := by
  rcases h with h | h | h | h | h | h | h
  · exact editRun_put_autoverify w runId params fs av h
  · exact editAllRunsInCategory_put_autoverify w category editParams fs av h
  · exact moveRunToCategoryWithId_put_autoverify w runId oldCategoryId
      newCategoryId fs av h
  · exact moveRunToCategory_put_autoverify w runId category newCategory fs av h
  · exact moveAllRunsInCategory_put_autoverify w category newCategory fs av h
  · exact absurd h (put_not_mem_getAllRunsInCategory w category fs av)
  · exact absurd h (put_not_mem_getSubcategoryIdFromNames w category fs av)

/-- Witness for C9: the write issued by `editRun` at `settingsWorld`, run
`rA`, carries `autoverify = true`. -/
theorem all_settings_writes_autoverify_witness :
    Request.putRunSettings (objectAssign settingsTwo EditParams.empty) true
        ∈ (editRun settingsWorld "rA" EditParams.empty).1
      ∧ true = true :=
  ⟨by decide,
    all_settings_writes_autoverify settingsWorld "rA" EditParams.empty
      EditParams.empty fixtureCategory fixtureCategory oldCatA newCatC
      (objectAssign settingsTwo EditParams.empty) true
      (Or.inl (by decide))⟩

/-- Witness for C10 at `settingsWorld`, run `rC` (whose fetched `values` is
`null`). -/
theorem moveRunToCategoryWithId_null_values_witness :
    (settingsWorld.runSettings "rC" = some settingsNull
        ∧ settingsNull.values = none)
      ∧ putValuesOf (moveRunToCategoryWithId settingsWorld "rC" oldCatA newCatC).1
          = [ValuesField.undef]
      ∧ putCategoryIdsOf (moveRunToCategoryWithId settingsWorld "rC" oldCatA newCatC).1
          = [newCatC.categoryId] :=
  ⟨⟨rfl, rfl⟩,
    moveRunToCategoryWithId_null_values_written_undefined settingsWorld "rC"
      settingsNull oldCatA newCatC rfl rfl⟩

end SpeedrunAPI
